import Mathlib

/-!
# Verification of the kalv blog's browser widgets

A shallow embedding of the browser-side widget code of the kalv
repository, together with proofs about the claims of its specification.

The embedded components are:

* `IndexedDBBackupRestore` (src/src/js/SnowflakeRenderer.js, second file
  in the bundle): base64 framing of blobs (`_fileToBase64`,
  `_base64ToBlob`), `backup()`, `restore()`, and the constructor.
* `DroppableImageTarget` (src/unnamed/part_000, first class):
  `initDatabase`, `storeImage`, and the drop handler.
* `DotCanvas.addRandomLine` (src/src/js/DotCanvas.js).
* The `InitKalv` page glue (`DB_NAMES`, the backup button's message
  handling).

IndexedDB itself is modelled as an association list of databases, each an
association list of object stores holding `(key, record)` lists kept in
ascending key order (the order in which `openCursor()` enumerates them).
JavaScript values appearing in records are modelled by `JsValue`;
machine details that cannot occur in this code base (typed arrays,
functions, `undefined`) are not represented.
-/

namespace Kalv

/-! ## Base64 (model of `btoa`/`atob` and `FileReader.readAsDataURL`)

`_fileToBase64` reads a blob with `FileReader.readAsDataURL`, which
produces `"data:" ++ type ++ ";base64," ++ base64-of-bytes`.
`_base64ToBlob` takes `base64.split(',')[1]` and decodes it with `atob`.
Bytes are `Nat` below 256; base64 text is a `List Char`. -/

def b64Alphabet : List Char :=
  "ABCDEFGHIJKLMNOPQRSTUVWXYZabcdefghijklmnopqrstuvwxyz0123456789+/".toList

/-- The base64 character of a sextet (used by the encoder). -/
def sextetChar (n : ℕ) : Char := b64Alphabet.getD n 'A'

/-- The sextet of a base64 character, `none` for characters outside the
alphabet (where `atob` throws `InvalidCharacterError`). -/
def charSextet (c : Char) : Option ℕ := b64Alphabet.findIdx? (· = c)

/-- Base64 encoding of a byte list, three bytes to four characters, with
`'='` padding, as produced by `readAsDataURL`. -/
def b64Encode : List ℕ → List Char
  | [] => []
  | [b1] => [sextetChar (b1 / 4), sextetChar (b1 % 4 * 16), '=', '=']
  | [b1, b2] =>
      [sextetChar (b1 / 4), sextetChar (b1 % 4 * 16 + b2 / 16),
       sextetChar (b2 % 16 * 4), '=']
  | b1 :: b2 :: b3 :: rest =>
      sextetChar (b1 / 4) :: sextetChar (b1 % 4 * 16 + b2 / 16) ::
      sextetChar (b2 % 16 * 4 + b3 / 64) :: sextetChar (b3 % 64) ::
      b64Encode rest

/-- Base64 decoding (model of `atob`): four characters to three bytes,
`'='` padding accepted only at the end, `none` on any malformed input. -/
def b64Decode : List Char → Option (List ℕ)
  | [] => some []
  | c1 :: c2 :: c3 :: c4 :: rest =>
    match charSextet c1, charSextet c2 with
    | some s1, some s2 =>
      if c3 = '=' then
        if c4 = '=' ∧ rest = [] then some [s1 * 4 + s2 / 16] else none
      else
        match charSextet c3 with
        | some s3 =>
          if c4 = '=' then
            if rest = [] then some [s1 * 4 + s2 / 16, s2 % 16 * 16 + s3 / 4]
            else none
          else
            match charSextet c4, b64Decode rest with
            | some s4, some tail =>
                some ((s1 * 4 + s2 / 16) :: (s2 % 16 * 16 + s3 / 4) ::
                      (s3 % 4 * 64 + s4) :: tail)
            | _, _ => none
        | none => none
    | _, _ => none
  | _ => none

theorem charSextet_sextetChar : ∀ n < 64, charSextet (sextetChar n) = some n := by
  decide

theorem sextetChar_mem (n : ℕ) : sextetChar n ∈ b64Alphabet := by
  unfold sextetChar
  rcases Nat.lt_or_ge n b64Alphabet.length with h | h
  · rw [List.getD_eq_getElem _ _ h]
    exact List.getElem_mem h
  · rw [List.getD_eq_default _ _ h]
    decide

theorem sextetChar_ne_pad (n : ℕ) : sextetChar n ≠ '=' := by
  intro h
  have := sextetChar_mem n
  rw [h] at this
  revert this
  decide

theorem sextetChar_ne_comma (n : ℕ) : sextetChar n ≠ ',' := by
  intro h
  have := sextetChar_mem n
  rw [h] at this
  revert this
  decide

theorem comma_not_mem_b64Encode (bs : List ℕ) : ',' ∉ b64Encode bs := by
  induction bs using b64Encode.induct with
  | case1 => simp [b64Encode]
  | case2 b1 =>
      simp only [b64Encode, List.mem_cons, List.not_mem_nil, or_false]
      intro h
      rcases h with h | h | h | h <;>
        first
          | exact sextetChar_ne_comma _ h.symm
          | exact absurd h (by decide)
  | case3 b1 b2 =>
      simp only [b64Encode, List.mem_cons, List.not_mem_nil, or_false]
      intro h
      rcases h with h | h | h | h <;>
        first
          | exact sextetChar_ne_comma _ h.symm
          | exact absurd h (by decide)
  | case4 b1 b2 b3 rest ih =>
      simp only [b64Encode, List.mem_cons]
      intro h
      rcases h with h | h | h | h | h <;>
        first
          | exact sextetChar_ne_comma _ h.symm
          | exact ih h

/-- Decoding inverts encoding on genuine byte lists. -/
theorem b64Decode_b64Encode :
    ∀ bs : List ℕ, (∀ b ∈ bs, b < 256) → b64Decode (b64Encode bs) = some bs := by
  intro bs
  induction bs using b64Encode.induct with
  | case1 => intro _; simp [b64Encode, b64Decode]
  | case2 b1 =>
      intro h
      have hb1 : b1 < 256 := h b1 (by simp)
      simp only [b64Encode, b64Decode,
        charSextet_sextetChar (b1 / 4) (by omega),
        charSextet_sextetChar (b1 % 4 * 16) (by omega)]
      simp only [if_pos rfl, and_self, if_pos, reduceIte, Option.some.injEq,
        List.cons.injEq, and_true]
      omega
  | case3 b1 b2 =>
      intro h
      have hb1 : b1 < 256 := h b1 (by simp)
      have hb2 : b2 < 256 := h b2 (by simp)
      simp only [b64Encode, b64Decode,
        charSextet_sextetChar (b1 / 4) (by omega),
        charSextet_sextetChar (b1 % 4 * 16 + b2 / 16) (by omega),
        charSextet_sextetChar (b2 % 16 * 4) (by omega),
        if_neg (sextetChar_ne_pad (b2 % 16 * 4)), if_pos rfl, reduceIte]
      simp only [Option.some.injEq, List.cons.injEq, and_true]
      omega
  | case4 b1 b2 b3 rest ih =>
      intro h
      have hb1 : b1 < 256 := h b1 (by simp)
      have hb2 : b2 < 256 := h b2 (by simp)
      have hb3 : b3 < 256 := h b3 (by simp)
      have hrest : ∀ b ∈ rest, b < 256 := fun b hb => h b (by simp [hb])
      simp only [b64Encode, b64Decode,
        charSextet_sextetChar (b1 / 4) (by omega),
        charSextet_sextetChar (b1 % 4 * 16 + b2 / 16) (by omega),
        charSextet_sextetChar (b2 % 16 * 4 + b3 / 64) (by omega),
        charSextet_sextetChar (b3 % 64) (by omega),
        if_neg (sextetChar_ne_pad (b2 % 16 * 4 + b3 / 64)),
        if_neg (sextetChar_ne_pad (b3 % 64)), ih hrest]
      simp only [Option.some.injEq, List.cons.injEq, and_true, true_and]
      refine ⟨by omega, by omega, by omega⟩

/-! ## `String.split(',')` and the data-URL framing -/

/-- Model of JavaScript `str.split(',')`. -/
def splitComma : List Char → List (List Char)
  | [] => [[]]
  | c :: cs =>
    let rest := splitComma cs
    if c = ',' then [] :: rest
    else
      match rest with
      | [] => [[c]]
      | g :: gs => (c :: g) :: gs

theorem splitComma_ne_nil (l : List Char) : splitComma l ≠ [] := by
  induction l with
  | nil => simp [splitComma]
  | cons c cs ih =>
      simp only [splitComma]
      split
      · simp
      · match h : splitComma cs with
        | [] => exact absurd h ih
        | g :: gs => simp

theorem splitComma_no_comma (l : List Char) (h : ',' ∉ l) : splitComma l = [l] := by
  induction l with
  | nil => rfl
  | cons c cs ih =>
      have hc : c ≠ ',' := fun hc => h (by simp [hc])
      have hcs : ',' ∉ cs := fun hm => h (by simp [hm])
      simp only [splitComma, if_neg hc, ih hcs]

theorem splitComma_append (a b : List Char) (h : ',' ∉ a) :
    splitComma (a ++ ',' :: b) = a :: splitComma b := by
  induction a with
  | nil => simp [splitComma]
  | cons c cs ih =>
      have hc : c ≠ ',' := fun hc => h (by simp [hc])
      have hcs : ',' ∉ cs := fun hm => h (by simp [hm])
      simp only [List.cons_append, splitComma, if_neg hc]
      rw [show cs.append (',' :: b) = cs ++ ',' :: b from rfl, ih hcs]

/-- `_fileToBase64` (SnowflakeRenderer.js lines 260-267): the value of
`FileReader.readAsDataURL` on a blob with the given bytes and MIME type. -/
def fileToBase64 (bytes : List ℕ) (type : String) : String :=
  "data:" ++ type ++ ";base64," ++ String.mk (b64Encode bytes)

/-- A stored Blob/File value: bytes, MIME type, and for a `File` its name
(`none` for a plain `Blob`, which has no `name` property). -/
structure JsBlob where
  bytes : List ℕ
  type : String
  name : Option String
  deriving Repr, DecidableEq

/-- `_base64ToBlob` (SnowflakeRenderer.js lines 275-288):
`atob(base64.split(',')[1])` packed into a new Blob of the given MIME
type; `none` models the `null` returned when the conversion throws. -/
def base64ToBlob (base64 : String) (mimeType : String) : Option JsBlob :=
  match (splitComma base64.toList).get? 1 with
  | none => none
  | some payload =>
    match b64Decode payload with
    | none => none
    | some bytes => some ⟨bytes, mimeType, none⟩

/-- Decoding a data URL produced by `_fileToBase64` recovers the bytes,
provided the MIME type written into the URL contains no comma (otherwise
`split(',')[1]` returns a slice of the MIME type instead of the payload). -/
theorem base64ToBlob_fileToBase64 (bytes : List ℕ) (type : String)
    (hb : ∀ b ∈ bytes, b < 256) (ht : ',' ∉ type.toList) :
    base64ToBlob (fileToBase64 bytes type) type = some ⟨bytes, type, none⟩ := by
  have hlist : (fileToBase64 bytes type).toList =
      ("data:".toList ++ type.toList ++ ";base64".toList) ++ ',' :: b64Encode bytes := by
    simp only [fileToBase64, String.toList, String.data_append]
    simp [String.mk]
  have hpre : ',' ∉ "data:".toList ++ type.toList ++ ";base64".toList := by
    intro hmem
    rcases List.mem_append.mp hmem with hmem | hmem
    · rcases List.mem_append.mp hmem with hmem | hmem
      · revert hmem; decide
      · exact ht hmem
    · revert hmem; decide
  rw [base64ToBlob, hlist, splitComma_append _ _ hpre,
    splitComma_no_comma _ (comma_not_mem_b64Encode bytes)]
  simp [b64Decode_b64Encode bytes hb]

/-! ## `Date.prototype.toISOString`

`JSON.stringify` serializes a `Date` by calling its `toJSON` method,
which returns `toISOString()`.  Modelled for the four-digit-year range
(the code only ever stores `new Date()`); the civil-from-days conversion
is the standard Gregorian algorithm. -/

def pad2 (n : ℕ) : String := if n < 10 then "0" ++ toString n else toString n

def pad3 (n : ℕ) : String :=
  if n < 10 then "00" ++ toString n
  else if n < 100 then "0" ++ toString n
  else toString n

def pad4 (n : ℕ) : String :=
  if n < 10 then "000" ++ toString n
  else if n < 100 then "00" ++ toString n
  else if n < 1000 then "0" ++ toString n
  else toString n

/-- Year, month and day of the civil date `days` days after 1970-01-01. -/
def civilFromDays (days : Int) : Int × ℕ × ℕ :=
  let z := days + 719468
  let era := Int.fdiv z 146097
  let doe := (z - era * 146097).toNat
  let yoe := (doe - doe / 1460 + doe / 36524 - doe / 146096) / 365
  let doy := doe - (365 * yoe + yoe / 4 - yoe / 100)
  let mp := (5 * doy + 2) / 153
  let d := doy - (153 * mp + 2) / 5 + 1
  let m := if mp < 10 then mp + 3 else mp - 9
  ((yoe : Int) + era * 400 + (if m ≤ 2 then 1 else 0), m, d)

/-- `toISOString` of a timestamp in milliseconds since the epoch. -/
def toISOString (ms : Int) : String :=
  let days := Int.fdiv ms 86400000
  let msOfDay := (ms - days * 86400000).toNat
  let ymd := civilFromDays days
  pad4 ymd.1.toNat ++ "-" ++ pad2 ymd.2.1 ++ "-" ++ pad2 ymd.2.2 ++ "T" ++
    pad2 (msOfDay / 3600000) ++ ":" ++ pad2 (msOfDay % 3600000 / 60000) ++ ":" ++
    pad2 (msOfDay % 60000 / 1000) ++ "." ++ pad3 (msOfDay % 1000) ++ "Z"

/-! ## JavaScript values and records

`JsValue` covers exactly the values this code base stores in IndexedDB
or produces by `JSON.parse`: JSON primitives, `Date`, `Blob`/`File`,
arrays and plain objects.  A record (the value under a cursor) is a list
of fields in property order. -/

inductive JsValue where
  | null
  | bool (b : Bool)
  | num (n : Int)
  | str (s : String)
  | date (ms : Int)
  | blob (b : JsBlob)
  | arr (elems : List JsValue)
  | obj (fields : List (String × JsValue))
  deriving Repr

abbrev Item := List (String × JsValue)

/-- First field of the given name, i.e. JavaScript property lookup. -/
def lookupField (item : Item) (key : String) : Option JsValue :=
  match item with
  | [] => none
  | (k, v) :: rest => if k = key then some v else lookupField rest key

/-- JavaScript truthiness, for `item[key] && ... && item[key]._indexedDB_file_data`. -/
def isTruthy : JsValue → Bool
  | .null => false
  | .bool b => b
  | .num n => n ≠ 0
  | .str s => s ≠ ""
  | _ => true

/-! ### The per-field conversions of `backup()` and `restore()` -/

/-- The `name` written into the backup marker:
`item[key].name || 'unnamed_file'` (a plain `Blob` has no name, and an
empty name is falsy). -/
def markerName : Option String → String
  | some n => if n = "" then "unnamed_file" else n
  | none => "unnamed_file"

/-- The backup cursor loop's treatment of one field (SnowflakeRenderer.js
lines 317-332): a Blob/File value becomes the
`{_indexedDB_file_data: true, data, type, name}` marker object, any other
value is left alone. -/
def backupFieldValue : JsValue → JsValue
  | .blob b =>
      .obj [("_indexedDB_file_data", .bool true),
            ("data", .str (fileToBase64 b.bytes b.type)),
            ("type", .str b.type),
            ("name", .str (markerName b.name))]
  | v => v

/-- One record through the backup cursor loop (`{ ...cursor.value }`
followed by the per-key conversion). -/
def backupItem (item : Item) : Item :=
  item.map fun kv => (kv.1, backupFieldValue kv.2)

/-- `restore()`'s treatment of one field (SnowflakeRenderer.js lines
394-406): an object that is truthy at `_indexedDB_file_data` is replaced
by `_base64ToBlob(data, type)`, which is `null` when the conversion
fails; everything else passes through. -/
def restoreFieldValue (v : JsValue) : JsValue :=
  match v with
  | .obj fields =>
    if isTruthy ((lookupField fields "_indexedDB_file_data").getD .null) then
      match (lookupField fields "data").getD .null,
            (lookupField fields "type").getD .null with
      | .str data, .str type =>
        match base64ToBlob data type with
        | some b => .blob b
        | none => .null
      | _, _ => .null
    else .obj fields
  | v => v

/-- One record through `restore()`'s field loop. -/
def restoreItemFields (item : Item) : Item :=
  item.map fun kv => (kv.1, restoreFieldValue kv.2)

/-! ### The effect of `JSON.stringify` followed by `JSON.parse`

`backup()` ends with `JSON.stringify(backupData)` and `restore()` starts
with `JSON.parse(jsonString)`.  On the values of this model the composed
effect is: a `Date` becomes its ISO string (via `toJSON`), a `Blob`
becomes the empty object (no enumerable own properties), and containers
are mapped recursively. -/

mutual

def jsonRound : JsValue → JsValue
  | .null => .null
  | .bool b => .bool b
  | .num n => .num n
  | .str s => .str s
  | .date ms => .str (toISOString ms)
  | .blob _ => .obj []
  | .arr elems => .arr (jsonRoundList elems)
  | .obj fields => .obj (jsonRoundFields fields)

def jsonRoundList : List JsValue → List JsValue
  | [] => []
  | v :: vs => jsonRound v :: jsonRoundList vs

def jsonRoundFields : List (String × JsValue) → List (String × JsValue)
  | [] => []
  | (k, v) :: fs => (k, jsonRound v) :: jsonRoundFields fs

end

/-! ## The IndexedDB state model

Keys in this code base are strings or numbers (`keyPath: 'id'`, with the
generator supplying integers).  A store's `records` list is kept in
ascending key order, which is the order `openCursor()` walks; `keyGen`
is the store's key generator.  `Database` and `IDBState` are association
lists keyed by store/database name. -/

inductive IDBKey where
  | num (n : Int)
  | str (s : String)
  deriving Repr, DecidableEq

/-- IndexedDB key ordering: every number sorts before every string. -/
def IDBKey.keyLt : IDBKey → IDBKey → Bool
  | .num a, .num b => a < b
  | .num _, .str _ => true
  | .str _, .num _ => false
  | .str a, .str b => a < b

structure ObjectStore where
  autoIncrement : Bool
  keyGen : Int
  records : List (IDBKey × Item)
  deriving Repr

abbrev Database := List (String × ObjectStore)

abbrev IDBState := List (String × Database)

/-- A freshly created object store (`createObjectStore(storeName,
{ keyPath: 'id', autoIncrement: true })` in `_openDB`'s upgrade handler). -/
def newStore : ObjectStore := { autoIncrement := true, keyGen := 1, records := [] }

def lookupDb (st : IDBState) (dbName : String) : Option Database :=
  match st with
  | [] => none
  | (n, db) :: rest => if n = dbName then some db else lookupDb rest dbName

def lookupStore (db : Database) (storeName : String) : Option ObjectStore :=
  match db with
  | [] => none
  | (n, s) :: rest => if n = storeName then some s else lookupStore rest storeName

def updateStore (db : Database) (storeName : String) (s : ObjectStore) : Database :=
  match db with
  | [] => []
  | (n, s') :: rest =>
      if n = storeName then (n, s) :: rest else (n, s') :: updateStore rest storeName s

def updateDb (st : IDBState) (dbName : String) (db : Database) : IDBState :=
  match st with
  | [] => []
  | (n, db') :: rest =>
      if n = dbName then (n, db) :: rest else (n, db') :: updateDb rest dbName db

/-- `_openDB(dbName, version, objectStoreNames)` (SnowflakeRenderer.js
lines 227-253): a missing database is created and `onupgradeneeded`
creates the requested stores; an existing database (already at version 1)
is returned unchanged, since no upgrade fires.  `backup()` passes no
store names, so it creates at most an empty database. -/
def openDB (st : IDBState) (dbName : String) (storeNames : List String) : IDBState :=
  match lookupDb st dbName with
  | some _ => st
  | none => st ++ [(dbName, storeNames.map fun s => (s, newStore))]

/-- Record (or replace) a value at a key, keeping ascending key order. -/
def insertRecord (k : IDBKey) (item : Item) :
    List (IDBKey × Item) → List (IDBKey × Item)
  | [] => [(k, item)]
  | (k', it') :: rest =>
    if k = k' then (k, item) :: rest
    else if IDBKey.keyLt k k' then (k, item) :: (k', it') :: rest
    else (k', it') :: insertRecord k item rest

/-- The key a value supplies through the `keyPath`, `none` when the value
is not a valid key (put then throws `DataError`).  Keys of other valid
sorts (dates, arrays) never occur in this code base. -/
def keyOfValue : JsValue → Option IDBKey
  | .num n => some (.num n)
  | .str s => some (.str s)
  | _ => none

/-- `store.put(item)` against `keyPath: 'id'`: the key is read from the
`id` property, or generated when the store has a key generator (the
generated key is also written back into the value).  `none` models the
synchronous `DataError` of a keyless put into a store without a
generator, or of an invalid key.  (The generator bump on explicit
numeric keys is not modelled; no claim exercises it.) -/
def storePut (store : ObjectStore) (item : Item) : Option ObjectStore :=
  match lookupField item "id" with
  | some v =>
    match keyOfValue v with
    | some k => some { store with records := insertRecord k item store.records }
    | none => none
  | none =>
    if store.autoIncrement then
      some { store with
             keyGen := store.keyGen + 1,
             records := insertRecord (.num store.keyGen)
               (item ++ [("id", .num store.keyGen)]) store.records }
    else none

/-! ## `IndexedDBBackupRestore.backup()` (SnowflakeRenderer.js 295-351)

`backup()` opens each configured database (creating at most an empty one
when it does not exist — `_openDB` is passed no store names), then for
every object store walks a cursor in ascending key order, converts
Blob/File fields, and pushes each record; the result is
`JSON.stringify(backupData)`. -/

/-- The in-memory `backupData` object at the end of the loops: one entry
per configured database name, holding one entry per object store with
its converted records in cursor order.  A database absent from the state
contributes `{}`, matching the empty database `_openDB` creates. -/
def backupData (dbNames : List String) (st : IDBState) :
    List (String × List (String × List Item)) :=
  dbNames.map fun dbName =>
    (dbName, ((lookupDb st dbName).getD []).map fun s =>
      (s.1, s.2.records.map fun kv => backupItem kv.2))

/-- The parsed value of the JSON string `backup()` resolves with:
`backupData` pushed through `JSON.stringify`/`JSON.parse`. -/
def backupParsed (dbNames : List String) (st : IDBState) : JsValue :=
  .obj ((backupData dbNames st).map fun d =>
    (d.1, .obj (d.2.map fun s =>
      (s.1, .arr (s.2.map fun item => jsonRound (.obj item))))))

/-- The parsed backup in the shape `restore()` walks it: database name to
store name to record list, records carried through stringify/parse. -/
def backupRestoreInput (dbNames : List String) (st : IDBState) :
    List (String × List (String × List Item)) :=
  (backupData dbNames st).map fun d =>
    (d.1, d.2.map fun s => (s.1, s.2.map jsonRoundFields))

/-! ## `IndexedDBBackupRestore.restore()` (SnowflakeRenderer.js 360-434)

`restore()` walks the parsed JSON database by database.  Each database is
opened at version 1 with the store names of the backup (so missing
databases are created with fresh auto-increment stores, while existing
databases are untouched).  Items are put one at a time; a failing put
throws, which the outer handler rewraps — nothing already written is
rolled back.  The failure models the synchronous `DataError` of
`store.put`, after which the earlier writes of the same transaction
commit. -/

def restorePutLoop (dbName storeName : String) (store : ObjectStore) :
    List Item → Option String × ObjectStore
  | [] => (none, store)
  | item :: rest =>
    match storePut store (restoreItemFields item) with
    | some store' => restorePutLoop dbName storeName store' rest
    | none =>
        (some ("Restoration failed for an item in " ++ dbName ++ "." ++
          storeName ++ "."), store)

def restoreStores (dbName : String) :
    List (String × List Item) → Database → Option String × Database
  | [], db => (none, db)
  | (storeName, items) :: rest, db =>
    if items.isEmpty then restoreStores dbName rest db
    else
      match lookupStore db storeName with
      | none => restoreStores dbName rest db
      | some store =>
        match restorePutLoop dbName storeName store items with
        | (none, store') => restoreStores dbName rest (updateStore db storeName store')
        | (some e, store') => (some e, updateStore db storeName store')

def restore :
    List (String × List (String × List Item)) → IDBState → Option String × IDBState
  | [], st => (none, st)
  | (dbName, storesData) :: rest, st =>
    let st1 := openDB st dbName (storesData.map Prod.fst)
    let db := (lookupDb st1 dbName).getD []
    match restoreStores dbName storesData db with
    | (none, db') => restore rest (updateDb st1 dbName db')
    | (some e, db') =>
        (some ("Restoration failed for " ++ dbName ++ ": " ++ e),
         updateDb st1 dbName db')

/-! ## The constructor and the page's backup button -/

def isStringValue : JsValue → Bool
  | .str _ => true
  | _ => false

/-- The `IndexedDBBackupRestore` constructor (SnowflakeRenderer.js
211-217): given an array, it throws unless every element is a string.
(The match arm for a non-string is unreachable under the guard.) -/
def mkBackupRestore (dbNames : List JsValue) : Except String (List String) :=
  if dbNames.any fun v => !isStringValue v then
    .error "dbNames must be an array of strings."
  else
    .ok (dbNames.map fun v => match v with | .str s => s | _ => "")

/-- `DB_NAMES` (part_000 line 805): the databases the page's
backup/restore helper is configured with. -/
def DB_NAMES : List String := ["kalvNotesDB", "windowImage"]

/-- The message the backup button's click handler shows on the page
(`showMessage`, part_000 lines 867-890) once `backup()` settles. -/
def backupClickMessage (result : Except String String) : String :=
  match result with
  | .ok _ => "Disk downloaded successfully!"
  | .error e => "Disk save failed: " ++ e ++ "."

/-! ## `DroppableImageTarget` (part_000 lines 43-186) -/

/-- A dropped `File`: name, MIME type, contents. -/
structure JsFile where
  name : String
  type : String
  bytes : List ℕ
  deriving Repr, DecidableEq

/-- Apply `f` to one object store of one database, if present. -/
def modifyStore (st : IDBState) (dbName storeName : String)
    (f : ObjectStore → ObjectStore) : IDBState :=
  match lookupDb st dbName with
  | none => st
  | some db =>
    match lookupStore db storeName with
    | none => st
    | some store => updateDb st dbName (updateStore db storeName (f store))

namespace DroppableImageTarget

def dbName : String := "windowImage"

/-- `initDatabase`: opening `windowImage` at version 1; on first creation
the upgrade handler runs `createObjectStore('images', { keyPath: 'id' })`
— note: no key generator. -/
def initDatabase (st : IDBState) : IDBState :=
  match lookupDb st dbName with
  | some _ => st
  | none =>
      st ++ [(dbName, [("images", { autoIncrement := false, keyGen := 1, records := [] })])]

/-- The record `storeImage` builds: fixed id `'current-image'`, the file
name, the `readAsDataURL` result, and a fresh `Date`. -/
def imageRecord (file : JsFile) (now : Int) : Item :=
  [("id", .str "current-image"),
   ("name", .str file.name),
   ("data", .str (fileToBase64 file.bytes file.type)),
   ("timestamp", .date now)]

/-- `storeImage` (part_000 lines 104-145): clear the `images` store, then
`add` the single record.  (`add` into the just-cleared store behaves as
the put of the model.) -/
def storeImage (file : JsFile) (now : Int) (st : IDBState) : IDBState :=
  modifyStore st dbName "images" fun store =>
    let cleared : ObjectStore := { store with records := [] }
    match storePut cleared (imageRecord file now) with
    | some store' => store'
    | none => cleared

/-- The `drop` listener (part_000 lines 92-101): only a nonempty file
list whose first file has an `image/` MIME type is stored. -/
def dropHandler (files : List JsFile) (now : Int) (st : IDBState) : IDBState :=
  match files with
  | [] => st
  | f :: _ => if f.type.startsWith "image/" then storeImage f now st else st

end DroppableImageTarget

/-! ## `DotCanvas.addRandomLine` (DotCanvas.js lines 121-140)

`Math.random()` is modelled by a stream `rs : ℕ → ℚ` of samples in
`[0, 1)`, consumed in call order: `rs 0` picks `randomIndex1`, `rs 1` the
initial `randomIndex2`, and the `while` loop resamples from `rs 2, …`.
The loop is given fuel; `none` means it has not exited within `fuel`
resamples (the call does not terminate on any finite prefix). -/

namespace DotCanvas

structure Dot where
  x : ℚ
  y : ℚ
  radius : ℚ
  color : String
  deriving Repr, DecidableEq

instance : Inhabited Dot := ⟨⟨0, 0, 0, ""⟩⟩

structure Line where
  dot1 : Dot
  dot2 : Dot
  color : String
  deriving Repr, DecidableEq

structure CanvasState where
  dots : List Dot
  lines : List Line
  deriving Repr, DecidableEq

/-- `getRandomColor` builds a random hex string and then returns
`"#ffffff"` regardless (DotCanvas.js lines 49-56). -/
def getRandomColor : String := "#ffffff"

/-- `Math.floor(Math.random() * this.dots.length)` for one sample. -/
def randIndex (r : ℚ) (n : ℕ) : ℕ := Nat.floor (r * n)

/-- The `while (randomIndex1 === randomIndex2)` retry loop, consuming
samples from position `pos` on. -/
def retrySecondIndex (i1 n : ℕ) (rs : ℕ → ℚ) (pos : ℕ) : ℕ → Option ℕ
  | 0 => none
  | fuel + 1 =>
    let i2 := randIndex (rs pos) n
    if i2 = i1 then retrySecondIndex i1 n rs (pos + 1) fuel else some i2

/-- `addRandomLine`: trim `lines` when above 20, draw the two indices,
push the connecting line.  (`scheduleNextLine` is timer glue and is not
part of the state change.)  JavaScript's `this.dots[i]` is total, hence
`getD`; the indices proved below are always in range when the loop
exits. -/
def addRandomLine (st : CanvasState) (rs : ℕ → ℚ) (fuel : ℕ) : Option CanvasState :=
  let lines := if st.lines.length > 20 then [] else st.lines
  let n := st.dots.length
  let i1 := randIndex (rs 0) n
  match retrySecondIndex i1 n rs 1 fuel with
  | none => none
  | some i2 =>
    some { st with
           lines := lines ++
             [{ dot1 := st.dots.getD i1 default,
                dot2 := st.dots.getD i2 default,
                color := getRandomColor }] }

end DotCanvas

/-! ## Access helpers and basic facts about the state model -/

/-- Record of a store at a key (the result of `store.get(key)`). -/
def recordLookup (records : List (IDBKey × Item)) (k : IDBKey) : Option Item :=
  match records with
  | [] => none
  | (k', it) :: rest => if k' = k then some it else recordLookup rest k

/-- The key `store.put` extracts from a value through `keyPath: 'id'`. -/
def itemKey (item : Item) : Option IDBKey :=
  (lookupField item "id").bind keyOfValue

theorem lookupDb_updateDb_self {st : IDBState} {n : String} {d0 : Database}
    (h : lookupDb st n = some d0) (db : Database) :
    lookupDb (updateDb st n db) n = some db := by
  induction st with
  | nil => cases h
  | cons p rest ih =>
      obtain ⟨m, d⟩ := p
      by_cases hm : m = n
      · simp [updateDb, lookupDb, hm]
      · simp only [updateDb, lookupDb, if_neg hm] at h ⊢
        exact ih h

theorem lookupDb_updateDb_other {st : IDBState} {n m : String} (h : m ≠ n)
    (db : Database) : lookupDb (updateDb st n db) m = lookupDb st m := by
  induction st with
  | nil => rfl
  | cons p rest ih =>
      obtain ⟨a, d⟩ := p
      by_cases ha : a = n
      · subst ha
        have ham : ¬(a = m) := fun he => h he.symm
        simp only [updateDb, if_pos rfl, lookupDb, if_neg ham]
      · simp only [updateDb, if_neg ha, lookupDb]
        by_cases ham : a = m
        · simp [ham]
        · simp only [if_neg ham]
          exact ih

theorem lookupStore_updateStore_self {db : Database} {n : String} {s0 : ObjectStore}
    (h : lookupStore db n = some s0) (s : ObjectStore) :
    lookupStore (updateStore db n s) n = some s := by
  induction db with
  | nil => cases h
  | cons p rest ih =>
      obtain ⟨m, d⟩ := p
      by_cases hm : m = n
      · simp [updateStore, lookupStore, hm]
      · simp only [updateStore, lookupStore, if_neg hm] at h ⊢
        exact ih h

theorem lookupStore_updateStore_other {db : Database} {n m : String} (h : m ≠ n)
    (s : ObjectStore) : lookupStore (updateStore db n s) m = lookupStore db m := by
  induction db with
  | nil => rfl
  | cons p rest ih =>
      obtain ⟨a, d⟩ := p
      by_cases ha : a = n
      · subst ha
        have ham : ¬(a = m) := fun he => h he.symm
        simp only [updateStore, if_pos rfl, lookupStore, if_neg ham]
      · simp only [updateStore, if_neg ha, lookupStore]
        by_cases ham : a = m
        · simp [ham]
        · simp only [if_neg ham]
          exact ih

theorem lookupDb_append_of_none {st : IDBState} {n : String}
    (h : lookupDb st n = none) (ext : IDBState) :
    lookupDb (st ++ ext) n = lookupDb ext n := by
  induction st with
  | nil => rfl
  | cons p rest ih =>
      obtain ⟨m, d⟩ := p
      by_cases hm : m = n
      · simp [lookupDb, hm] at h
      · simp only [List.cons_append, lookupDb, if_neg hm] at h ⊢
        exact ih h

theorem lookupDb_append_of_some {st : IDBState} {n : String} {d : Database}
    (h : lookupDb st n = some d) (ext : IDBState) :
    lookupDb (st ++ ext) n = some d := by
  induction st with
  | nil => cases h
  | cons p rest ih =>
      obtain ⟨m, d'⟩ := p
      by_cases hm : m = n
      · simp only [lookupDb, if_pos hm] at h
        simp [List.cons_append, lookupDb, hm, h]
      · simp only [List.cons_append, lookupDb, if_neg hm] at h ⊢
        exact ih h

theorem lookupDb_mem {st : IDBState} {n : String} {d : Database}
    (h : lookupDb st n = some d) : (n, d) ∈ st := by
  induction st with
  | nil => cases h
  | cons p rest ih =>
      obtain ⟨m, d'⟩ := p
      by_cases hm : m = n
      · subst hm
        simp only [lookupDb, eq_self_iff_true, if_true, Option.some.injEq] at h
        subst h
        simp
      · simp only [lookupDb, if_neg hm] at h
        exact List.mem_cons_of_mem _ (ih h)

theorem lookupStore_mem {db : Database} {n : String} {s : ObjectStore}
    (h : lookupStore db n = some s) : (n, s) ∈ db := by
  induction db with
  | nil => cases h
  | cons p rest ih =>
      obtain ⟨m, s'⟩ := p
      by_cases hm : m = n
      · subst hm
        simp only [lookupStore, eq_self_iff_true, if_true, Option.some.injEq] at h
        subst h
        simp
      · simp only [lookupStore, if_neg hm] at h
        exact List.mem_cons_of_mem _ (ih h)

theorem recordLookup_insertRecord_self (k : IDBKey) (item : Item) :
    ∀ recs, recordLookup (insertRecord k item recs) k = some item := by
  intro recs
  induction recs with
  | nil => simp [insertRecord, recordLookup]
  | cons p rest ih =>
      obtain ⟨k', it'⟩ := p
      by_cases hk : k = k'
      · simp [insertRecord, hk, recordLookup]
      · by_cases hlt : IDBKey.keyLt k k' = true
        · simp [insertRecord, hk, hlt, recordLookup]
        · simp only [insertRecord, if_neg hk, hlt, Bool.false_eq_true, if_false,
            recordLookup, if_neg (fun he : k' = k => hk he.symm)]
          exact ih

theorem recordLookup_insertRecord_other {k k0 : IDBKey} (h : k0 ≠ k)
    (item : Item) : ∀ recs,
    recordLookup (insertRecord k item recs) k0 = recordLookup recs k0 := by
  have hne : ¬(k = k0) := fun he => h he.symm
  intro recs
  induction recs with
  | nil => simp [insertRecord, recordLookup, if_neg hne]
  | cons p rest ih =>
      obtain ⟨k', it'⟩ := p
      by_cases hk : k = k'
      · subst hk
        simp only [insertRecord, if_pos rfl, recordLookup, if_neg hne]
      · by_cases hlt : IDBKey.keyLt k k' = true
        · simp only [insertRecord, if_neg hk, hlt, if_true, recordLookup, if_neg hne]
        · simp only [insertRecord, if_neg hk, hlt, Bool.false_eq_true, if_false,
            recordLookup]
          by_cases hk0 : k' = k0
          · simp [hk0]
          · simp only [if_neg hk0]
            exact ih

/-! ### The key survives the backup and restore conversions -/

theorem backupFieldValue_of_key {v : JsValue} {k : IDBKey}
    (h : keyOfValue v = some k) : backupFieldValue v = v := by
  cases v <;> first | rfl | exact nomatch h

theorem jsonRound_of_key {v : JsValue} {k : IDBKey}
    (h : keyOfValue v = some k) : jsonRound v = v := by
  cases v <;> first | rfl | exact nomatch h

theorem restoreFieldValue_of_key {v : JsValue} {k : IDBKey}
    (h : keyOfValue v = some k) : restoreFieldValue v = v := by
  cases v <;> first | rfl | exact nomatch h

theorem lookupField_map (f : JsValue → JsValue) (it : Item) (key : String) :
    lookupField (it.map fun kv => (kv.1, f kv.2)) key = (lookupField it key).map f := by
  induction it with
  | nil => rfl
  | cons kv rest ih =>
      obtain ⟨k, v⟩ := kv
      by_cases hk : k = key
      · simp [lookupField, hk]
      · simp only [List.map_cons, lookupField, if_neg hk]
        exact ih

theorem jsonRoundFields_eq_map (it : Item) :
    jsonRoundFields it = it.map fun kv => (kv.1, jsonRound kv.2) := by
  induction it with
  | nil => rfl
  | cons kv rest ih =>
      obtain ⟨k, v⟩ := kv
      simp [jsonRoundFields, ih]

theorem itemKey_restoreItemFields {it : Item} {k : IDBKey}
    (h : itemKey it = some k) : itemKey (restoreItemFields it) = some k := by
  unfold itemKey at h ⊢
  cases hv : lookupField it "id" with
  | none => rw [hv] at h; cases h
  | some v =>
      rw [hv] at h
      simp only [Option.some_bind] at h
      rw [restoreItemFields, lookupField_map, hv]
      simp [restoreFieldValue_of_key h, h]

theorem itemKey_backup_jsonRound {it : Item} {k : IDBKey}
    (h : itemKey it = some k) :
    itemKey (jsonRoundFields (backupItem it)) = some k := by
  unfold itemKey at h ⊢
  cases hv : lookupField it "id" with
  | none => rw [hv] at h; cases h
  | some v =>
      rw [hv] at h
      simp only [Option.some_bind] at h
      rw [jsonRoundFields_eq_map, lookupField_map jsonRound, backupItem,
        lookupField_map backupFieldValue, hv]
      simp [backupFieldValue_of_key h, jsonRound_of_key h, h]

theorem storePut_of_itemKey {store : ObjectStore} {it : Item} {k : IDBKey}
    (h : itemKey it = some k) :
    storePut store it = some { store with records := insertRecord k it store.records } := by
  unfold itemKey at h
  unfold storePut
  cases hv : lookupField it "id" with
  | none => rw [hv] at h; cases h
  | some v =>
      rw [hv] at h
      simp only [Option.some_bind] at h
      simp [h]

/-! ### What a run of successful puts leaves in a store -/

theorem restorePutLoop_spec (dbN sN : String) :
    ∀ (items : List Item) (store : ObjectStore),
      (∀ it ∈ items, (itemKey it).isSome = true) →
      (restorePutLoop dbN sN store items).1 = none ∧
      (∀ k : IDBKey, (some k) ∉ items.map itemKey →
        recordLookup (restorePutLoop dbN sN store items).2.records k =
          recordLookup store.records k) ∧
      ((items.map itemKey).Nodup →
        ∀ it ∈ items, ∀ k, itemKey it = some k →
          recordLookup (restorePutLoop dbN sN store items).2.records k =
            some (restoreItemFields it)) := by
  intro items
  induction items with
  | nil =>
      intro store _
      exact ⟨rfl, fun _ _ => rfl, by simp⟩
  | cons it0 rest ih =>
      intro store hvalid
      obtain ⟨k0, hk0⟩ := Option.isSome_iff_exists.mp (hvalid it0 (by simp))
      have hput : storePut store (restoreItemFields it0) =
          some { store with records := insertRecord k0 (restoreItemFields it0) store.records } :=
        storePut_of_itemKey (itemKey_restoreItemFields hk0)
      have hstep : restorePutLoop dbN sN store (it0 :: rest) =
          restorePutLoop dbN sN
            { store with records := insertRecord k0 (restoreItemFields it0) store.records }
            rest := by
        rw [restorePutLoop, hput]
      obtain ⟨ih1, ih2, ih3⟩ :=
        ih { store with records := insertRecord k0 (restoreItemFields it0) store.records }
          (fun it hit => hvalid it (by simp [hit]))
      refine ⟨by rw [hstep]; exact ih1, ?_, ?_⟩
      · intro k hk
        have hne : k ≠ k0 := by
          intro he
          exact hk (by simp [he, List.mem_cons, hk0.symm])
        have hk_rest : some k ∉ rest.map itemKey := fun hmem => hk (by simp [hmem])
        rw [hstep, ih2 k hk_rest]
        exact recordLookup_insertRecord_other hne _ _
      · intro hnodup it hit k hk
        simp only [List.map_cons, List.nodup_cons] at hnodup
        rcases List.mem_cons.mp hit with rfl | hit
        · have hkk0 : k0 = k := Option.some.inj (hk0.symm.trans hk)
          subst hkk0
          have hnotin : some k0 ∉ rest.map itemKey := hk0 ▸ hnodup.1
          rw [hstep, ih2 k0 hnotin]
          exact recordLookup_insertRecord_self k0 _ _
        · rw [hstep]
          exact ih3 hnodup.2 it hit k hk

/-! ## Round-trip matching for C1

A value is JSON-safe when the stringify/parse trip of `backup()` and
`restore()` neither changes it nor breaks its blob framing: JSON
primitives pass through, blobs need genuine bytes and a comma-free MIME
type.  `Date`s are *not* JSON-safe — `JSON.stringify` turns them into
ISO strings (the C1 counterexample). -/

def jsonSafeValue : JsValue → Bool
  | .null => true
  | .bool _ => true
  | .num _ => true
  | .str _ => true
  | .blob b => b.bytes.all (· < 256) && !(b.type.toList.contains ',')
  | _ => false

def jsonSafeItem (it : Item) : Bool := it.all fun kv => jsonSafeValue kv.2

/-- What the claim asks of a reinstated field: a Blob/File comes back as
a Blob with the same bytes and MIME type (the `File` name is not kept);
every other value comes back equal. -/
def fieldMatches (orig new : JsValue) : Prop :=
  match orig with
  | .blob b => new = .blob ⟨b.bytes, b.type, none⟩
  | v => new = v

/-- A reinstated record: same fields in order, each matching. -/
def itemMatches (orig new : Item) : Prop :=
  List.Forall₂ (fun a b => a.1 = b.1 ∧ fieldMatches a.2 b.2) orig new

/-- Well-formed store contents: distinct keys, every record's `id` equal
to its key, every record JSON-safe. -/
def wfStoreRecords (store : ObjectStore) : Prop :=
  (store.records.map Prod.fst).Nodup ∧
  ∀ r ∈ store.records, itemKey r.2 = some r.1 ∧ jsonSafeItem r.2 = true

def wfDatabase (db : Database) : Prop :=
  (db.map Prod.fst).Nodup ∧ ∀ s ∈ db, wfStoreRecords s.2

instance (store : ObjectStore) : Decidable (wfStoreRecords store) := by
  unfold wfStoreRecords
  infer_instance

instance (db : Database) : Decidable (wfDatabase db) := by
  unfold wfDatabase
  infer_instance

theorem restore_jsonRound_backup_blob (b : JsBlob)
    (hb : ∀ x ∈ b.bytes, x < 256) (ht : ',' ∉ b.type.toList) :
    restoreFieldValue (jsonRound (backupFieldValue (.blob b))) =
      .blob ⟨b.bytes, b.type, none⟩ := by
  have hround : jsonRound (backupFieldValue (.blob b)) = backupFieldValue (.blob b) := by
    simp [backupFieldValue, jsonRound, jsonRoundFields]
  rw [hround]
  simp only [backupFieldValue, restoreFieldValue, lookupField, reduceIte,
    Option.getD_some, isTruthy, if_true]
  rw [if_neg (by decide : ¬("_indexedDB_file_data" = "data")),
      if_neg (by decide : ¬("_indexedDB_file_data" = "type")),
      if_neg (by decide : ¬("data" = "type"))]
  simp only [Option.getD_some, base64ToBlob_fileToBase64 b.bytes b.type hb ht]

/-- One JSON-safe field survives backup, stringify/parse and restore. -/
theorem roundTripField (v : JsValue) (h : jsonSafeValue v = true) :
    fieldMatches v (restoreFieldValue (jsonRound (backupFieldValue v))) := by
  cases v with
  | null => exact rfl
  | bool b => exact rfl
  | num n => exact rfl
  | str s => exact rfl
  | blob b =>
      simp only [jsonSafeValue, Bool.and_eq_true, List.all_eq_true,
        decide_eq_true_eq, Bool.not_eq_true'] at h
      have ht : ',' ∉ b.type.toList := by
        intro hmem
        have hc : b.type.toList.contains ',' = true := List.elem_eq_true_of_mem hmem
        rw [h.2] at hc
        exact Bool.noConfusion hc
      exact restore_jsonRound_backup_blob b h.1 ht
  | date ms => exact absurd h (by simp [jsonSafeValue])
  | arr es => exact absurd h (by simp [jsonSafeValue])
  | obj fs => exact absurd h (by simp [jsonSafeValue])

/-- One JSON-safe record survives the whole per-record pipeline. -/
theorem roundTripItem (it : Item) (h : jsonSafeItem it = true) :
    itemMatches it (restoreItemFields (jsonRoundFields (backupItem it))) := by
  induction it with
  | nil => exact List.Forall₂.nil
  | cons kv rest ih =>
      obtain ⟨k, v⟩ := kv
      simp only [jsonSafeItem, List.all_cons, Bool.and_eq_true] at h
      refine List.Forall₂.cons ⟨rfl, ?_⟩ (ih ?_)
      · exact roundTripField v h.1
      · simp only [jsonSafeItem]
        exact h.2

/-! ### Preservation lemmas for the restore walk -/

theorem lookupDb_openDB_other {st : IDBState} {n m : String}
    (h : m ≠ n) (names : List String) :
    lookupDb (openDB st n names) m = lookupDb st m := by
  unfold openDB
  cases hn : lookupDb st n with
  | some db => rfl
  | none =>
      cases hm : lookupDb st m with
      | some d => exact lookupDb_append_of_some hm _
      | none =>
          rw [lookupDb_append_of_none hm]
          simp [lookupDb, Ne.symm h]

theorem lookupDb_openDB_create {st : IDBState} {n : String}
    (h : lookupDb st n = none) (names : List String) :
    lookupDb (openDB st n names) n = some (names.map fun s => (s, newStore)) := by
  unfold openDB
  rw [h, lookupDb_append_of_none h]
  simp [lookupDb]

theorem lookupStore_all_newStore :
    ∀ (names : List String) (m : String), m ∈ names →
      lookupStore (names.map fun s => (s, newStore)) m = some newStore := by
  intro names
  induction names with
  | nil => intro m hm; exact absurd hm (List.not_mem_nil m)
  | cons a rest ih =>
      intro m hm
      by_cases ha : a = m
      · simp [lookupStore, ha]
      · rcases List.mem_cons.mp hm with rfl | hm
        · exact absurd rfl ha
        · simp only [List.map_cons, lookupStore, if_neg ha]
          exact ih m hm

theorem restoreStores_preserves_other (n : String) :
    ∀ (entries : List (String × List Item)) (db : Database) (m : String),
      m ∉ entries.map Prod.fst →
      lookupStore (restoreStores n entries db).2 m = lookupStore db m := by
  intro entries
  induction entries with
  | nil => intro db m _; rfl
  | cons e rest ih =>
      obtain ⟨sN, items⟩ := e
      intro db m hm
      have hmr : m ∉ rest.map Prod.fst := fun hmem => hm (by simp [hmem])
      have hms : m ≠ sN := fun he => hm (by simp [he])
      by_cases hempty : items.isEmpty = true
      · rw [show restoreStores n ((sN, items) :: rest) db = restoreStores n rest db by
          simp [restoreStores, hempty]]
        exact ih db m hmr
      · cases hst : lookupStore db sN with
        | none =>
            rw [show restoreStores n ((sN, items) :: rest) db = restoreStores n rest db by
              simp [restoreStores, hempty, hst]]
            exact ih db m hmr
        | some store =>
            rcases hfin : restorePutLoop n sN store items with ⟨e, store'⟩
            cases e with
            | none =>
                rw [show restoreStores n ((sN, items) :: rest) db =
                    restoreStores n rest (updateStore db sN store') by
                  simp [restoreStores, hempty, hst, hfin]]
                rw [ih _ m hmr]
                exact lookupStore_updateStore_other hms _
            | some err =>
                rw [show (restoreStores n ((sN, items) :: rest) db).2 =
                    updateStore db sN store' by
                  simp [restoreStores, hempty, hst, hfin]]
                exact lookupStore_updateStore_other hms _

theorem restore_preserves_other :
    ∀ (entries : List (String × List (String × List Item))) (st : IDBState)
      (m : String), m ∉ entries.map Prod.fst →
      lookupDb (restore entries st).2 m = lookupDb st m := by
  intro entries
  induction entries with
  | nil => intro st m _; rfl
  | cons e rest ih =>
      obtain ⟨n, storesData⟩ := e
      intro st m hm
      have hmr : m ∉ rest.map Prod.fst := fun hmem => hm (by simp [hmem])
      have hmn : m ≠ n := fun he => hm (by simp [he])
      rcases hstores : restoreStores n storesData
          ((lookupDb (openDB st n (storesData.map Prod.fst)) n).getD []) with ⟨e, db'⟩
      cases e with
      | none =>
          rw [show restore ((n, storesData) :: rest) st =
              restore rest (updateDb (openDB st n (storesData.map Prod.fst)) n db') by
            simp [restore, hstores]]
          rw [ih _ m hmr, lookupDb_updateDb_other hmn, lookupDb_openDB_other hmn]
      | some err =>
          rw [show (restore ((n, storesData) :: rest) st).2 =
              updateDb (openDB st n (storesData.map Prod.fst)) n db' by
            simp [restore, hstores]]
          rw [lookupDb_updateDb_other hmn, lookupDb_openDB_other hmn]

theorem backupEntries_names (l : Database) :
    (l.map fun s =>
      (s.1, s.2.records.map fun kv => jsonRoundFields (backupItem kv.2))).map
        Prod.fst = l.map Prod.fst := by
  rw [List.map_map]
  exact List.map_congr_left fun a _ => rfl

/-- Restoring the backup of a well-formed database into freshly created
stores succeeds and reinstates every record at its key. -/
theorem restoreStores_backup (n : String) :
    ∀ (src : Database) (dbAcc : Database),
      (src.map Prod.fst).Nodup →
      (∀ s ∈ src, wfStoreRecords s.2) →
      (∀ s ∈ src, lookupStore dbAcc s.1 = some newStore) →
      (restoreStores n (src.map fun s =>
          (s.1, s.2.records.map fun kv => jsonRoundFields (backupItem kv.2)))
        dbAcc).1 = none ∧
      ∀ s ∈ src, ∃ store',
        lookupStore (restoreStores n (src.map fun s =>
          (s.1, s.2.records.map fun kv => jsonRoundFields (backupItem kv.2)))
          dbAcc).2 s.1 = some store' ∧
        ∀ r ∈ s.2.records, ∃ item',
          recordLookup store'.records r.1 = some item' ∧ itemMatches r.2 item' := by
  intro src
  induction src with
  | nil =>
      intro dbAcc _ _ _
      exact ⟨rfl, fun s hs => absurd hs (List.not_mem_nil s)⟩
  | cons s0 rest ih =>
      intro dbAcc hnodup hwf hlook
      simp only [List.map_cons, List.nodup_cons] at hnodup
      have hwf0 := hwf s0 (by simp)
      have hlook0 := hlook s0 (by simp)
      have hnames := backupEntries_names rest
      cases hrec : s0.2.records with
      | nil =>
          have hstep : restoreStores n
              ((s0 :: rest).map fun s =>
                (s.1, s.2.records.map fun kv => jsonRoundFields (backupItem kv.2)))
              dbAcc =
              restoreStores n (rest.map fun s =>
                (s.1, s.2.records.map fun kv => jsonRoundFields (backupItem kv.2)))
              dbAcc := by
            simp [restoreStores, hrec]
          obtain ⟨ih1, ih2⟩ := ih dbAcc hnodup.2 (fun s hs => hwf s (by simp [hs]))
            (fun s hs => hlook s (by simp [hs]))
          rw [hstep]
          refine ⟨ih1, ?_⟩
          intro s hs
          rcases List.mem_cons.mp hs with rfl | hs
          · refine ⟨newStore, ?_, ?_⟩
            · rw [restoreStores_preserves_other n _ _ _ (hnames ▸ hnodup.1)]
              exact hlook0
            · rw [hrec]
              intro r hr
              exact absurd hr (List.not_mem_nil r)
          · exact ih2 s hs
      | cons r0 rs =>
          have hvalid : ∀ it ∈ s0.2.records.map
              fun kv => jsonRoundFields (backupItem kv.2), (itemKey it).isSome = true := by
            intro it hit
            obtain ⟨r, hr, rfl⟩ := List.mem_map.mp hit
            rw [itemKey_backup_jsonRound (hwf0.2 r hr).1]
            rfl
          have hkeysmap : (s0.2.records.map
              fun kv => jsonRoundFields (backupItem kv.2)).map itemKey =
              s0.2.records.map fun r => some r.1 := by
            rw [List.map_map]
            exact List.map_congr_left fun r hr =>
              itemKey_backup_jsonRound (hwf0.2 r hr).1
          have hnodupkeys : ((s0.2.records.map
              fun kv => jsonRoundFields (backupItem kv.2)).map itemKey).Nodup := by
            rw [hkeysmap,
              show (fun r : IDBKey × Item => some r.1) =
                (some ∘ Prod.fst : IDBKey × Item → Option IDBKey) from rfl,
              ← List.map_map]
            exact hwf0.1.map (Option.some_injective _)
          obtain ⟨h1, _h2, h3⟩ := restorePutLoop_spec n s0.1
            (s0.2.records.map fun kv => jsonRoundFields (backupItem kv.2))
            newStore hvalid
          rcases hfin : restorePutLoop n s0.1 newStore
            (s0.2.records.map fun kv => jsonRoundFields (backupItem kv.2))
            with ⟨e, store'⟩
          rw [hfin] at h1
          subst h1
          have hstep : restoreStores n
              ((s0 :: rest).map fun s =>
                (s.1, s.2.records.map fun kv => jsonRoundFields (backupItem kv.2)))
              dbAcc =
              restoreStores n (rest.map fun s =>
                (s.1, s.2.records.map fun kv => jsonRoundFields (backupItem kv.2)))
              (updateStore dbAcc s0.1 store') := by
            have hne : (s0.2.records.map
                fun kv => jsonRoundFields (backupItem kv.2)).isEmpty = false := by
              rw [hrec]
              rfl
            simp [restoreStores, hne, hlook0, hfin]
          obtain ⟨ih1, ih2⟩ := ih (updateStore dbAcc s0.1 store') hnodup.2
            (fun s hs => hwf s (by simp [hs]))
            (fun s hs => by
              have hne : s.1 ≠ s0.1 := by
                intro he
                exact hnodup.1 (he ▸ List.mem_map_of_mem Prod.fst hs)
              rw [lookupStore_updateStore_other hne]
              exact hlook s (by simp [hs]))
          rw [hstep]
          refine ⟨ih1, ?_⟩
          intro s hs
          rcases List.mem_cons.mp hs with rfl | hs
          · refine ⟨store', ?_, ?_⟩
            · rw [restoreStores_preserves_other n _ _ _ (hnames ▸ hnodup.1)]
              exact lookupStore_updateStore_self hlook0 store'
            · intro r hr
              refine ⟨restoreItemFields (jsonRoundFields (backupItem r.2)), ?_, ?_⟩
              · have := h3 hnodupkeys (jsonRoundFields (backupItem r.2))
                  (List.mem_map_of_mem _ hr) r.1
                  (itemKey_backup_jsonRound (hwf0.2 r hr).1)
                rw [hfin] at this
                exact this
              · exact roundTripItem r.2 (hwf0.2 r hr).2
          · exact ih2 s hs

theorem backupRestoreInput_cons (n : String) (rest : List String) (st : IDBState) :
    backupRestoreInput (n :: rest) st =
      (n, ((lookupDb st n).getD []).map fun s =>
        (s.1, s.2.records.map fun kv => jsonRoundFields (backupItem kv.2))) ::
      backupRestoreInput rest st := by
  simp [backupRestoreInput, backupData, List.map_map, Function.comp]

theorem backupRestoreInput_names (l : List String) (st : IDBState) :
    (backupRestoreInput l st).map Prod.fst = l := by
  induction l with
  | nil => rfl
  | cons a rest ih => rw [backupRestoreInput_cons, List.map_cons, ih]

/-- `restore()` of `backup()`'s output, run against any accumulated state
not yet containing the configured databases, succeeds and reinstates
every record of every well-formed source database. -/
theorem restore_backup_spec (st : IDBState) :
    ∀ (dbNames : List String) (acc : IDBState),
      dbNames.Nodup →
      (∀ n ∈ dbNames, ∀ db, lookupDb st n = some db → wfDatabase db) →
      (∀ n ∈ dbNames, lookupDb acc n = none) →
      (restore (backupRestoreInput dbNames st) acc).1 = none ∧
      ∀ n ∈ dbNames, ∀ db, lookupDb st n = some db →
        ∃ db', lookupDb (restore (backupRestoreInput dbNames st) acc).2 n = some db' ∧
          ∀ s ∈ db, ∃ store', lookupStore db' s.1 = some store' ∧
            ∀ r ∈ s.2.records, ∃ item',
              recordLookup store'.records r.1 = some item' ∧ itemMatches r.2 item' := by
  intro dbNames
  induction dbNames with
  | nil =>
      intro acc _ _ _
      exact ⟨rfl, fun n hn => absurd hn (List.not_mem_nil n)⟩
  | cons n rest ih =>
      intro acc hnodup hwf hacc
      simp only [List.nodup_cons] at hnodup
      have haccn := hacc n (by simp)
      have hnrest := backupRestoreInput_names rest st
      rw [backupRestoreInput_cons]
      cases hsrc : lookupDb st n with
      | none =>
          simp only [hsrc, Option.getD_none, List.map_nil]
          have hopen : lookupDb (openDB acc n (List.map Prod.fst
              ([] : List (String × List Item)))) n = some [] := by
            simpa using lookupDb_openDB_create haccn []
          have hrun : restore ((n, ([] : List (String × List Item))) ::
                backupRestoreInput rest st) acc =
              restore (backupRestoreInput rest st)
                (updateDb (openDB acc n []) n []) := by
            simp [restore, restoreStores, show lookupDb (openDB acc n []) n = some []
              from by simpa using hopen]
          obtain ⟨ih1, ih2⟩ := ih (updateDb (openDB acc n []) n [])
            hnodup.2 (fun m hm => hwf m (by simp [hm]))
            (fun m hm => by
              have hmn : m ≠ n := fun he => hnodup.1 (he ▸ hm)
              rw [lookupDb_updateDb_other hmn, lookupDb_openDB_other hmn]
              exact hacc m (by simp [hm]))
          rw [hrun]
          refine ⟨ih1, ?_⟩
          intro m hm db hdb
          rcases List.mem_cons.mp hm with rfl | hm
          · rw [hsrc] at hdb
            cases hdb
          · exact ih2 m hm db hdb
      | some srcDb =>
          have hwfdb := hwf n (by simp) srcDb hsrc
          simp only [hsrc, Option.getD_some]
          have hcreate := lookupDb_openDB_create haccn
            ((srcDb.map fun s =>
              (s.1, s.2.records.map fun kv => jsonRoundFields (backupItem kv.2))).map
                Prod.fst)
          rw [backupEntries_names] at hcreate
          have hlookfresh : ∀ s ∈ srcDb,
              lookupStore ((srcDb.map Prod.fst).map fun m => (m, newStore)) s.1 =
                some newStore :=
            fun s hs => lookupStore_all_newStore _ s.1 (List.mem_map_of_mem Prod.fst hs)
          obtain ⟨hs1, hs2⟩ := restoreStores_backup n srcDb
            ((srcDb.map Prod.fst).map fun m => (m, newStore))
            hwfdb.1 hwfdb.2 hlookfresh
          rcases hsres : restoreStores n
            (srcDb.map fun s =>
              (s.1, s.2.records.map fun kv => jsonRoundFields (backupItem kv.2)))
            ((srcDb.map Prod.fst).map fun m => (m, newStore)) with ⟨e, db'⟩
          rw [hsres] at hs1
          subst hs1
          rw [hsres] at hs2
          have hlookopen : lookupDb (openDB acc n ((srcDb.map fun s =>
              (s.1, s.2.records.map fun kv =>
                jsonRoundFields (backupItem kv.2))).map Prod.fst)) n =
              some ((srcDb.map Prod.fst).map fun m => (m, newStore)) := by
            rw [backupEntries_names]
            exact hcreate
          have hrun : restore ((n, srcDb.map fun s =>
                (s.1, s.2.records.map fun kv => jsonRoundFields (backupItem kv.2))) ::
                backupRestoreInput rest st) acc =
              restore (backupRestoreInput rest st)
                (updateDb (openDB acc n ((srcDb.map fun s =>
                  (s.1, s.2.records.map fun kv =>
                    jsonRoundFields (backupItem kv.2))).map Prod.fst)) n db') := by
            simp only [restore, hlookopen, Option.getD_some, hsres]
          obtain ⟨ih1, ih2⟩ := ih _ hnodup.2 (fun m hm => hwf m (by simp [hm]))
            (fun m hm => by
              have hmn : m ≠ n := fun he => hnodup.1 (he ▸ hm)
              rw [lookupDb_updateDb_other hmn, lookupDb_openDB_other hmn]
              exact hacc m (by simp [hm]))
          rw [hrun]
          refine ⟨ih1, ?_⟩
          intro m hm db hdb
          rcases List.mem_cons.mp hm with rfl | hm
          · rw [hsrc] at hdb
            have hdbeq : db = srcDb := (Option.some.inj hdb).symm
            refine ⟨db', ?_, hdbeq ▸ hs2⟩
            rw [restore_preserves_other _ _ m (by rw [hnrest]; exact hnodup.1)]
            exact lookupDb_updateDb_self hlookopen db'
          · exact ih2 m hm db hdb

/-! # The claims -/

/-! ## C1 — backup followed by restore as a round trip -/

/-- C1 (counterexample).  The configured databases hold records with
`Date`-valued fields — `DroppableImageTarget.storeImage` writes
`timestamp: new Date()` into `windowImage.images`.  `JSON.stringify`
inside `backup()` serializes a `Date` as its ISO string, and `restore()`
writes that string back, so the reinstated record does *not* have equal
field values: the timestamp comes back as the string
`"1970-01-01T00:00:00.000Z"`, not as the original `Date`. -/
theorem c1_counterexample :
    restore (backupRestoreInput DB_NAMES
        [("windowImage", [("images",
          ⟨false, 1, [(.str "current-image",
            [("id", .str "current-image"), ("timestamp", .date 0)])]⟩)])]) [] =
      (none, [("kalvNotesDB", []),
        ("windowImage", [("images",
          ⟨true, 1, [(.str "current-image",
            [("id", .str "current-image"),
             ("timestamp", .str "1970-01-01T00:00:00.000Z")])]⟩)])]) ∧
    JsValue.str "1970-01-01T00:00:00.000Z" ≠ JsValue.date 0 := by
  constructor
  · rfl
  · intro h
    cases h

/-- C1 (amended).  For every collection of records whose field values are
JSON-safe — JSON primitives, or Blobs/Files with a comma-free MIME type;
in particular no `Date` values — backing up the configured databases and
restoring the result into a fresh browser reinstates every record at its
key: non-blob fields come back equal, and every Blob/File field comes
back as a Blob with the same bytes and the same MIME type. -/
theorem c1_backup_restore_round_trip (dbNames : List String) (st : IDBState)
    (hnodup : dbNames.Nodup)
    (hwf : ∀ n ∈ dbNames, ∀ db, lookupDb st n = some db → wfDatabase db) :
    (restore (backupRestoreInput dbNames st) []).1 = none ∧
    ∀ n ∈ dbNames, ∀ db, lookupDb st n = some db →
      ∃ db', lookupDb (restore (backupRestoreInput dbNames st) []).2 n = some db' ∧
        ∀ s ∈ db, ∃ store', lookupStore db' s.1 = some store' ∧
          ∀ r ∈ s.2.records, ∃ item',
            recordLookup store'.records r.1 = some item' ∧ itemMatches r.2 item' :=
  restore_backup_spec st dbNames [] hnodup hwf fun _ _ => rfl

theorem c1_backup_restore_round_trip_witness :
    (restore (backupRestoreInput DB_NAMES
        [("windowImage", [("images",
          ⟨false, 1, [(.str "a",
            [("id", .str "a"), ("pic", .blob ⟨[7, 8], "image/png", some "p.png"⟩)])]⟩)])])
      []).1 = none ∧
    ∀ n ∈ DB_NAMES, ∀ db,
      lookupDb [("windowImage", [("images",
          ⟨false, 1, [(.str "a",
            [("id", .str "a"),
             ("pic", .blob ⟨[7, 8], "image/png", some "p.png"⟩)])]⟩)])] n = some db →
      ∃ db', lookupDb (restore (backupRestoreInput DB_NAMES
          [("windowImage", [("images",
            ⟨false, 1, [(.str "a",
              [("id", .str "a"),
               ("pic", .blob ⟨[7, 8], "image/png", some "p.png"⟩)])]⟩)])]) []).2 n =
          some db' ∧
        ∀ s ∈ db, ∃ store', lookupStore db' s.1 = some store' ∧
          ∀ r ∈ s.2.records, ∃ item',
            recordLookup store'.records r.1 = some item' ∧ itemMatches r.2 item' :=
  c1_backup_restore_round_trip DB_NAMES
    [("windowImage", [("images",
      ⟨false, 1, [(.str "a",
        [("id", .str "a"), ("pic", .blob ⟨[7, 8], "image/png", some "p.png"⟩)])]⟩)])]
    (by decide)
    (by
      intro n hn db hdb
      rcases List.mem_cons.mp hn with rfl | hn'
      · exact nomatch hdb
      · rcases List.mem_cons.mp hn' with rfl | hn''
        · injection hdb with h
          subst h
          decide
        · exact absurd hn'' (List.not_mem_nil n))

/-! ## C2 — base64 framing of blob fields -/

/-- C2 (counterexample).  The claim says every field carrying the
`_indexedDB_file_data` marker is converted back into a Blob whose bytes
are the base64 decoding of `data`.  For a blob whose MIME type contains
a comma — e.g. the valid type `video/webm;codecs=vp9,opus`, which this
very repository probes in `getSupportedMimeTypeOptions` — the marker
written by `backup()` embeds that type in the data URL, so
`base64.split(',')[1]` returns `"opus;base64"` instead of the payload,
`atob` throws, and `restore()` stores `null`, not a Blob. -/
theorem c2_counterexample :
    restoreFieldValue (backupFieldValue
        (.blob ⟨[1], "video/webm;codecs=vp9,opus", none⟩)) = .null ∧
    ∀ b : JsBlob, JsValue.null ≠ .blob b := by
  constructor
  · rfl
  · intro b h
    cases h

/-- C2 (amended).  During backup every Blob/File field is replaced by the
`{_indexedDB_file_data: true, data, type, name}` marker whose `data` is
the base64 data-URL encoding of the bytes, and every other field is left
unchanged; during restore a marker field is converted back into a Blob
with the original bytes and the recorded MIME type *provided the MIME
type written into the data URL contains no comma* (otherwise the field
becomes `null`); fields that are not marker objects pass through
unchanged. -/
theorem c2_base64_framing :
    (∀ b : JsBlob, backupFieldValue (.blob b) =
        .obj [("_indexedDB_file_data", .bool true),
              ("data", .str (fileToBase64 b.bytes b.type)),
              ("type", .str b.type),
              ("name", .str (markerName b.name))]) ∧
    (∀ v : JsValue, (∀ b, v ≠ .blob b) → backupFieldValue v = v) ∧
    (∀ b : JsBlob, (∀ x ∈ b.bytes, x < 256) → ',' ∉ b.type.toList →
        restoreFieldValue (backupFieldValue (.blob b)) =
          .blob ⟨b.bytes, b.type, none⟩) ∧
    (∀ fields : Item,
        isTruthy ((lookupField fields "_indexedDB_file_data").getD .null) = false →
        restoreFieldValue (.obj fields) = .obj fields) ∧
    (∀ v : JsValue, (∀ fs, v ≠ .obj fs) → restoreFieldValue v = v) := by
  refine ⟨fun b => rfl, ?_, ?_, ?_, ?_⟩
  · intro v h
    cases v <;> first | rfl | exact absurd rfl (h _)
  · intro b hb ht
    simp only [backupFieldValue, restoreFieldValue, lookupField, reduceIte,
      Option.getD_some, isTruthy, if_true]
    rw [if_neg (by decide : ¬("_indexedDB_file_data" = "data")),
        if_neg (by decide : ¬("_indexedDB_file_data" = "type")),
        if_neg (by decide : ¬("data" = "type"))]
    simp only [Option.getD_some, base64ToBlob_fileToBase64 b.bytes b.type hb ht]
  · intro fields h
    simp only [restoreFieldValue, h, Bool.false_eq_true, if_false]
  · intro v h
    cases v <;> first | rfl | exact absurd rfl (h _)

theorem c2_base64_framing_witness :
    restoreFieldValue (backupFieldValue
        (.blob ⟨[1, 2, 3], "image/png", some "a.png"⟩)) =
      .blob ⟨[1, 2, 3], "image/png", none⟩ :=
  c2_base64_framing.2.2.1 ⟨[1, 2, 3], "image/png", some "a.png"⟩
    (by decide) (by decide)

/-! ## C3 — backup serializes the whole database contents -/

theorem backupData_names (l : List String) (st : IDBState) :
    (backupData l st).map Prod.fst = l := by
  induction l with
  | nil => rfl
  | cons a rest ih =>
      simp only [backupData, List.map_cons] at ih ⊢
      rw [ih]

theorem forall₂_map_left {α β : Type _} (f : α → β) (R : β → α → Prop) :
    ∀ l : List α, (∀ a ∈ l, R (f a) a) → List.Forall₂ R (l.map f) l := by
  intro l
  induction l with
  | nil => intro _; exact List.Forall₂.nil
  | cons a rest ih =>
      intro h
      exact List.Forall₂.cons (h a (by simp)) (ih fun a ha => h a (by simp [ha]))

/-- C3.  The parsed value of the JSON string `backup()` resolves with
maps each configured database name, in order, to an object mapping each
of that database's store names to the array of all of that store's
records (fields converted as in C2, then stringified), enumerated in the
model's cursor order — which the hypothesis states is ascending key
order.  A database missing from the state contributes the empty object,
matching the empty database `_openDB` creates for it. -/
theorem c3_backup_serializes_all (dbNames : List String) (st : IDBState)
    (hsorted : ∀ p ∈ st, ∀ s ∈ p.2,
      (s.2.records.map Prod.fst).Pairwise fun a b => IDBKey.keyLt a b = true) :
    ∃ dbEntries, backupParsed dbNames st = .obj dbEntries ∧
      dbEntries.map Prod.fst = dbNames ∧
      ∀ e ∈ dbEntries, ∃ storeEntries, e.2 = .obj storeEntries ∧
        List.Forall₂ (fun (se : String × JsValue) (s : String × ObjectStore) =>
            se.1 = s.1 ∧
            se.2 = .arr (s.2.records.map fun kv =>
              jsonRound (.obj (backupItem kv.2))) ∧
            (s.2.records.map Prod.fst).Pairwise fun a b => IDBKey.keyLt a b = true)
          storeEntries ((lookupDb st e.1).getD []) := by
  refine ⟨(backupData dbNames st).map fun d =>
      (d.1, JsValue.obj (d.2.map fun s =>
        (s.1, JsValue.arr (s.2.map fun item => jsonRound (JsValue.obj item))))),
    ?_, ?_, ?_⟩
  · rfl
  · rw [List.map_map]
    have hc : (backupData dbNames st).map
        (Prod.fst ∘ fun d =>
          (d.1, JsValue.obj (d.2.map fun s =>
            (s.1, JsValue.arr (s.2.map fun item => jsonRound (JsValue.obj item)))))) =
        (backupData dbNames st).map Prod.fst :=
      List.map_congr_left fun d _ => rfl
    rw [hc]
    exact backupData_names dbNames st
  · intro e he
    simp only [List.mem_map] at he
    obtain ⟨d, hd, rfl⟩ := he
    simp only [backupData, List.mem_map] at hd
    obtain ⟨n, _hn, rfl⟩ := hd
    refine ⟨((lookupDb st n).getD []).map fun s =>
        (s.1, JsValue.arr (s.2.records.map fun kv =>
          jsonRound (.obj (backupItem kv.2)))), ?_, ?_⟩
    · simp [List.map_map, Function.comp, backupItem]
    · apply forall₂_map_left
      intro s hs
      refine ⟨rfl, rfl, ?_⟩
      cases hlook : lookupDb st n with
      | none =>
          rw [hlook] at hs
          exact absurd hs (List.not_mem_nil s)
      | some db =>
          rw [hlook, Option.getD_some] at hs
          exact hsorted (n, db) (lookupDb_mem hlook) s hs

theorem c3_backup_serializes_all_witness :
    ∃ dbEntries, backupParsed DB_NAMES
        [("windowImage", [("images",
          ⟨false, 1, [(.num 1, [("id", .num 1)]),
                      (.str "z", [("id", .str "z")])]⟩)])] = .obj dbEntries ∧
      dbEntries.map Prod.fst = DB_NAMES ∧
      ∀ e ∈ dbEntries, ∃ storeEntries, e.2 = .obj storeEntries ∧
        List.Forall₂ (fun (se : String × JsValue) (s : String × ObjectStore) =>
            se.1 = s.1 ∧
            se.2 = .arr (s.2.records.map fun kv =>
              jsonRound (.obj (backupItem kv.2))) ∧
            (s.2.records.map Prod.fst).Pairwise fun a b => IDBKey.keyLt a b = true)
          storeEntries
          ((lookupDb [("windowImage", [("images",
            ⟨false, 1, [(.num 1, [("id", .num 1)]),
                        (.str "z", [("id", .str "z")])]⟩)])] e.1).getD []) :=
  c3_backup_serializes_all DB_NAMES
    [("windowImage", [("images",
      ⟨false, 1, [(.num 1, [("id", .num 1)]),
                  (.str "z", [("id", .str "z")])]⟩)])]
    (by decide)

/-! ## C4 — failure handling -/

/-- C4 (counterexample).  The claim says no widget operation signals
failure to its caller by throwing, and no failure reaches the page.
The `IndexedDBBackupRestore` constructor throws on a non-string database
name, and the page's backup click handler writes the failure into the
`messageBox` element via `showMessage`. -/
theorem c4_counterexample :
    mkBackupRestore [JsValue.num 1] =
      .error "dbNames must be an array of strings." ∧
    backupClickMessage (.error "Backup failed for kalvNotesDB: boom") =
      "Disk save failed: Backup failed for kalvNotesDB: boom." :=
  ⟨rfl, rfl⟩

/-- C4 (amended).  Widget failures are logged to the console, but they
are also propagated: the `IndexedDBBackupRestore` constructor throws
exactly when some configured name is not a string (and `backup()` /
`restore()` reject on database errors), and the page glue reports
backup failures to the user through `showMessage`. -/
theorem c4_failure_signalling (dbNames : List JsValue) :
    (mkBackupRestore dbNames = .error "dbNames must be an array of strings." ↔
      ∃ v ∈ dbNames, isStringValue v = false) ∧
    (∀ e, backupClickMessage (.error e) = "Disk save failed: " ++ e ++ ".") := by
  constructor
  · unfold mkBackupRestore
    by_cases h : (dbNames.any fun v => !isStringValue v) = true
    · rw [if_pos h]
      constructor
      · intro _
        obtain ⟨v, hv, hb⟩ := List.any_eq_true.mp h
        exact ⟨v, hv, by simpa using hb⟩
      · intro _
        rfl
    · rw [if_neg h]
      constructor
      · intro he
        exact nomatch he
      · intro hex
        obtain ⟨v, hv, hb⟩ := hex
        exact absurd (List.any_eq_true.mpr ⟨v, hv, by simp [hb]⟩) h
  · intro e
    rfl

/-! ## C5 — restore is not atomic -/

/-- C5.  A concrete run in which `restore()` rejects after having already
committed writes, with no rollback: the backup names a fresh database
`alpha` (restored successfully, key generator store) and then targets the
existing non-generator `images` store of `windowImage` with a keyless
record, whose `put` throws `DataError`.  The returned state keeps the
`alpha` record although the promise rejected. -/
theorem c5_restore_not_atomic :
    restore
      [("alpha", [("s", [[("id", .num 1), ("v", .num 7)]])]),
       ("windowImage", [("images", [[("x", .num 1)]])])]
      [("windowImage", [("images", ⟨false, 1, []⟩)])] =
    (some "Restoration failed for windowImage: Restoration failed for an item in windowImage.images.",
     [("windowImage", [("images", ⟨false, 1, []⟩)]),
      ("alpha", [("s", ⟨true, 1, [(.num 1, [("id", .num 1), ("v", .num 7)])]⟩)])]) ∧
    lookupDb [("windowImage", [("images", (⟨false, 1, []⟩ : ObjectStore))])] "alpha" =
      none :=
  ⟨rfl, rfl⟩

/-! ## C6 — widgets sharing persistent state -/

/-- C6 (counterexample).  `DroppableImageTarget` stores its image record
in `windowImage.images`; a subsequent `restore()` run of the
backup/restore helper (configured with `DB_NAMES`, which contains
`windowImage`) overwrites that very record: the `data` field written by
the image widget, `"data:image/png;base64,AgM="`, is replaced by
`"gone"`.  So the state written by one widget is modified by the
operation of another. -/
theorem c6_counterexample :
    DroppableImageTarget.storeImage ⟨"p.png", "image/png", [2, 3]⟩ 5
        (DroppableImageTarget.initDatabase []) =
      [("windowImage", [("images",
        ⟨false, 1, [(.str "current-image",
          [("id", .str "current-image"), ("name", .str "p.png"),
           ("data", .str "data:image/png;base64,AgM="),
           ("timestamp", .date 5)])]⟩)])] ∧
    restore [("windowImage", [("images",
        [[("id", .str "current-image"), ("data", .str "gone")]])])]
      [("windowImage", [("images",
        ⟨false, 1, [(.str "current-image",
          [("id", .str "current-image"), ("name", .str "p.png"),
           ("data", .str "data:image/png;base64,AgM="),
           ("timestamp", .date 5)])]⟩)])] =
      (none, [("windowImage", [("images",
        ⟨false, 1, [(.str "current-image",
          [("id", .str "current-image"), ("data", .str "gone")])]⟩)])]) ∧
    "gone" ≠ "data:image/png;base64,AgM=" :=
  ⟨rfl, rfl, by decide⟩

/-- C6 (amended).  The widgets are mutually independent *except for the
backup/restore helper*: it is configured (via `DB_NAMES`) with the very
database `windowImage` that the drag-and-drop image store writes, and a
`restore()` naming `windowImage.images` overwrites the image store's
`current-image` record with the restored item. -/
theorem c6_shared_windowimage :
    DroppableImageTarget.dbName ∈ DB_NAMES ∧
    ∀ (st : IDBState) (db : Database) (store : ObjectStore) (item : Item),
      lookupDb st "windowImage" = some db →
      lookupStore db "images" = some store →
      lookupField item "id" = some (.str "current-image") →
      ∃ store' : ObjectStore,
        restore [("windowImage", [("images", [item])])] st =
          (none, updateDb st "windowImage" (updateStore db "images" store')) ∧
        lookupDb (updateDb st "windowImage" (updateStore db "images" store'))
          "windowImage" = some (updateStore db "images" store') ∧
        lookupStore (updateStore db "images" store') "images" = some store' ∧
        recordLookup store'.records (.str "current-image") =
          some (restoreItemFields item) := by
  refine ⟨by decide, ?_⟩
  intro st db store item hdb hstore hid
  have hkey : itemKey item = some (.str "current-image") := by
    unfold itemKey
    rw [hid]
    rfl
  have hput : storePut store (restoreItemFields item) =
      some { store with
               records := insertRecord (.str "current-image")
                 (restoreItemFields item) store.records } :=
    storePut_of_itemKey (itemKey_restoreItemFields hkey)
  refine ⟨{ store with
              records := insertRecord (.str "current-image")
                (restoreItemFields item) store.records },
    ?_, lookupDb_updateDb_self hdb _, lookupStore_updateStore_self hstore _,
    recordLookup_insertRecord_self _ _ _⟩
  simp only [restore, openDB, hdb, Option.getD_some, restoreStores,
    List.isEmpty_cons, Bool.false_eq_true, if_false, hstore, restorePutLoop, hput]

theorem c6_shared_windowimage_witness :
    ∃ store' : ObjectStore,
      restore [("windowImage", [("images",
          [[("id", .str "current-image"), ("data", .str "x")]])])]
        [("windowImage", [("images", ⟨false, 1, []⟩)])] =
        (none, updateDb [("windowImage", [("images", ⟨false, 1, []⟩)])]
          "windowImage" (updateStore [("images", ⟨false, 1, []⟩)] "images" store')) ∧
      lookupDb (updateDb [("windowImage", [("images", ⟨false, 1, []⟩)])]
          "windowImage" (updateStore [("images", ⟨false, 1, []⟩)] "images" store'))
        "windowImage" =
        some (updateStore [("images", ⟨false, 1, []⟩)] "images" store') ∧
      lookupStore (updateStore [("images", ⟨false, 1, []⟩)] "images" store')
        "images" = some store' ∧
      recordLookup store'.records (.str "current-image") =
        some (restoreItemFields [("id", .str "current-image"), ("data", .str "x")]) :=
  c6_shared_windowimage.2 [("windowImage", [("images", ⟨false, 1, []⟩)])]
    [("images", ⟨false, 1, []⟩)] ⟨false, 1, []⟩
    [("id", .str "current-image"), ("data", .str "x")] rfl rfl rfl

/-! ## C7 — timestamped items are restored, not skipped -/

/-- C7.  `restore()` writes every item of the backup JSON into its object
store — the class comment's "skips items with a 'timestamp' property" is
dead: the check is commented out (SnowflakeRenderer.js lines 389-392),
and the per-item loop puts each converted item unconditionally.  The
conclusion holds for all items whatever their fields, in particular for
items with a `"timestamp"` field (the witness restores one). -/
theorem c7_restore_writes_timestamped (dbN storeN : String) (items : List Item)
    (st : IDBState) (db : Database) (store : ObjectStore)
    (hdb : lookupDb st dbN = some db) (hstore : lookupStore db storeN = some store)
    (hkeys : ∀ it ∈ items, (itemKey it).isSome = true)
    (hnodup : (items.map itemKey).Nodup) :
    (restore [(dbN, [(storeN, items)])] st).1 = none ∧
    ∀ it ∈ items, ∀ k, itemKey it = some k →
      ∃ db' store',
        lookupDb (restore [(dbN, [(storeN, items)])] st).2 dbN = some db' ∧
        lookupStore db' storeN = some store' ∧
        recordLookup store'.records k = some (restoreItemFields it) := by
  cases items with
  | nil =>
      constructor
      · simp only [restore, openDB, hdb, Option.getD_some, restoreStores,
          List.isEmpty_nil, if_true]
      · intro it hit
        exact absurd hit (List.not_mem_nil it)
  | cons it0 rest =>
      obtain ⟨h1, _h2, h3⟩ := restorePutLoop_spec dbN storeN (it0 :: rest) store hkeys
      rcases hfin : restorePutLoop dbN storeN store (it0 :: rest) with ⟨e, store'⟩
      rw [hfin] at h1
      subst h1
      have hrun : restore [(dbN, [(storeN, it0 :: rest)])] st =
          (none, updateDb st dbN (updateStore db storeN store')) := by
        simp only [restore, openDB, hdb, Option.getD_some, restoreStores,
          List.isEmpty_cons, Bool.false_eq_true, if_false, hstore, hfin]
      constructor
      · rw [hrun]
      · intro it hit k hk
        refine ⟨updateStore db storeN store', store', ?_, ?_, ?_⟩
        · rw [hrun]
          exact lookupDb_updateDb_self hdb _
        · exact lookupStore_updateStore_self hstore _
        · have := h3 hnodup it hit k hk
          rw [hfin] at this
          exact this

theorem c7_restore_writes_timestamped_witness :
    ∃ db' store',
      lookupDb (restore [("d", [("s",
          [[("id", .num 1), ("timestamp", .str "2025-01-01")]])])]
        [("d", [("s", ⟨true, 1, []⟩)])]).2 "d" = some db' ∧
      lookupStore db' "s" = some store' ∧
      recordLookup store'.records (.num 1) =
        some (restoreItemFields [("id", .num 1), ("timestamp", .str "2025-01-01")]) :=
  (c7_restore_writes_timestamped "d" "s"
      [[("id", .num 1), ("timestamp", .str "2025-01-01")]]
      [("d", [("s", ⟨true, 1, []⟩)])] [("s", ⟨true, 1, []⟩)] ⟨true, 1, []⟩
      rfl rfl (by decide) (by decide)).2
    [("id", .num 1), ("timestamp", .str "2025-01-01")] (by simp) (.num 1) rfl

/-! ## C9 — the image store keeps at most one image -/

/-- C9.  After every completed `storeImage` the `images` store of
`windowImage` holds exactly the one record with id `current-image` (the
store is cleared before the insert), and a drop of no files or of a
non-image file leaves the state untouched. -/
theorem c9_single_image_invariant :
    (∀ (file : JsFile) (now : Int) (st : IDBState) (db : Database)
        (store : ObjectStore),
      lookupDb st DroppableImageTarget.dbName = some db →
      lookupStore db "images" = some store →
      ∃ db' : Database,
        lookupDb (DroppableImageTarget.storeImage file now st)
          DroppableImageTarget.dbName = some db' ∧
        ∃ store' : ObjectStore, lookupStore db' "images" = some store' ∧
          store'.records =
            [(.str "current-image", DroppableImageTarget.imageRecord file now)]) ∧
    (∀ (now : Int) (st : IDBState),
      DroppableImageTarget.dropHandler [] now st = st) ∧
    (∀ (f : JsFile) (fs : List JsFile) (now : Int) (st : IDBState),
      f.type.startsWith "image/" = false →
      DroppableImageTarget.dropHandler (f :: fs) now st = st) := by
  refine ⟨?_, fun now st => rfl, ?_⟩
  · intro file now st db store hdb hstore
    unfold DroppableImageTarget.storeImage modifyStore
    simp only [hdb, hstore]
    exact ⟨_, lookupDb_updateDb_self hdb _, _, lookupStore_updateStore_self hstore _, rfl⟩
  · intro f fs now st h
    simp [DroppableImageTarget.dropHandler, h]

theorem c9_single_image_invariant_witness :
    ∃ db' : Database,
      lookupDb (DroppableImageTarget.storeImage ⟨"a.png", "image/png", [1]⟩ 0
          (DroppableImageTarget.initDatabase []))
        DroppableImageTarget.dbName = some db' ∧
      ∃ store' : ObjectStore, lookupStore db' "images" = some store' ∧
        store'.records =
          [(.str "current-image",
            DroppableImageTarget.imageRecord ⟨"a.png", "image/png", [1]⟩ 0)] :=
  c9_single_image_invariant.1 ⟨"a.png", "image/png", [1]⟩ 0
    (DroppableImageTarget.initDatabase []) [("images", ⟨false, 1, []⟩)]
    ⟨false, 1, []⟩ rfl rfl

/-! ## C8 — `addRandomLine` and its retry loop -/

theorem randIndex_lt (r : ℚ) (n : ℕ) (hn : 1 ≤ n) (h0 : 0 ≤ r) (h1 : r < 1) :
    DotCanvas.randIndex r n < n := by
  unfold DotCanvas.randIndex
  rw [Nat.floor_lt (by positivity)]
  calc r * n < 1 * n := by
        apply mul_lt_mul_of_pos_right h1
        exact_mod_cast Nat.pos_of_ne_zero (by omega)
    _ = n := one_mul _

theorem randIndex_zero_of_lt_two (r : ℚ) (n : ℕ) (hn : n < 2)
    (_h0 : 0 ≤ r) (h1 : r < 1) : DotCanvas.randIndex r n = 0 := by
  unfold DotCanvas.randIndex
  interval_cases n
  · rw [Nat.cast_zero, mul_zero]
    exact Nat.floor_zero
  · rw [Nat.cast_one, mul_one]
    exact Nat.floor_eq_zero.mpr h1

theorem retry_stuck (n : ℕ) (rs : ℕ → ℚ)
    (hzero : ∀ k, DotCanvas.randIndex (rs k) n = 0) :
    ∀ fuel pos, DotCanvas.retrySecondIndex 0 n rs pos fuel = none := by
  intro fuel
  induction fuel with
  | zero => intro pos; rfl
  | succ f ih =>
      intro pos
      simp only [DotCanvas.retrySecondIndex, hzero pos, if_pos rfl]
      exact ih (pos + 1)

theorem retry_exits (i1 n : ℕ) (rs : ℕ → ℚ) (hn : 1 ≤ n)
    (hr : ∀ k, 0 ≤ rs k ∧ rs k < 1) :
    ∀ (fuel pos k : ℕ), pos ≤ k → k < pos + fuel →
      DotCanvas.randIndex (rs k) n ≠ i1 →
      ∃ i2, DotCanvas.retrySecondIndex i1 n rs pos fuel = some i2 ∧
        i2 ≠ i1 ∧ i2 < n := by
  intro fuel
  induction fuel with
  | zero =>
      intro pos k h1 h2 _
      omega
  | succ f ih =>
      intro pos k h1 h2 hne
      by_cases hexit : DotCanvas.randIndex (rs pos) n = i1
      · have hpk : pos ≠ k := fun he => hne (he ▸ hexit)
        rw [show DotCanvas.retrySecondIndex i1 n rs pos (f + 1) =
            DotCanvas.retrySecondIndex i1 n rs (pos + 1) f from by
          simp [DotCanvas.retrySecondIndex, hexit]]
        exact ih (pos + 1) k (by omega) (by omega) hne
      · exact ⟨DotCanvas.randIndex (rs pos) n,
          by simp [DotCanvas.retrySecondIndex, hexit], hexit,
          randIndex_lt (rs pos) n hn (hr pos).1 (hr pos).2⟩

/-- C8.  With fewer than two dots both random indices are always `0`
(for zero or one dot, `Math.floor(Math.random() * length)` is `0`), so
the `while` loop never exits — `addRandomLine` returns `none` for every
fuel, i.e. the call does not terminate.  With at least two dots, every
sample has a positive chance of exiting (an exiting sample exists for
any first index), and for every sample stream that ever draws a
different index — an event of probability 1 — the call terminates and
appends exactly one line connecting two distinct existing dots. -/
theorem c8_add_random_line_termination (st : DotCanvas.CanvasState)
    (rs : ℕ → ℚ) (hr : ∀ k, 0 ≤ rs k ∧ rs k < 1) :
    (st.dots.length < 2 →
      (∀ k, DotCanvas.randIndex (rs k) st.dots.length = 0) ∧
      ∀ fuel, DotCanvas.addRandomLine st rs fuel = none) ∧
    (2 ≤ st.dots.length →
      (∀ i1 < st.dots.length, ∃ r : ℚ, 0 ≤ r ∧ r < 1 ∧
        DotCanvas.randIndex r st.dots.length ≠ i1) ∧
      ∀ k, 1 ≤ k →
        DotCanvas.randIndex (rs k) st.dots.length ≠
          DotCanvas.randIndex (rs 0) st.dots.length →
        ∃ fuel st', DotCanvas.addRandomLine st rs fuel = some st' ∧
          ∃ i1 i2, i1 ≠ i2 ∧ i1 < st.dots.length ∧ i2 < st.dots.length ∧
            st'.dots = st.dots ∧
            st'.lines = (if st.lines.length > 20 then [] else st.lines) ++
              [{ dot1 := st.dots.getD i1 default,
                 dot2 := st.dots.getD i2 default,
                 color := DotCanvas.getRandomColor }]) := by
  constructor
  · intro hlt
    have hzero : ∀ k, DotCanvas.randIndex (rs k) st.dots.length = 0 :=
      fun k => randIndex_zero_of_lt_two (rs k) _ hlt (hr k).1 (hr k).2
    refine ⟨hzero, ?_⟩
    intro fuel
    simp only [DotCanvas.addRandomLine, hzero 0,
      retry_stuck st.dots.length rs hzero fuel 1]
  · intro hge
    constructor
    · intro i1 hi1
      have hlen : (0 : ℚ) < st.dots.length := by
        exact_mod_cast (by omega : 0 < st.dots.length)
      by_cases h0 : i1 = 0
      · subst h0
        refine ⟨(1 : ℚ) / st.dots.length, by positivity, ?_, ?_⟩
        · rw [div_lt_one hlen]
          exact_mod_cast (by omega : (1 : ℕ) < st.dots.length)
        · rw [show DotCanvas.randIndex ((1 : ℚ) / st.dots.length) st.dots.length
              = 1 from by
            unfold DotCanvas.randIndex
            rw [div_mul_cancel₀ _ hlen.ne']
            exact Nat.floor_one]
          exact one_ne_zero
      · refine ⟨0, le_refl 0, by norm_num, ?_⟩
        rw [show DotCanvas.randIndex 0 st.dots.length = 0 from by
          unfold DotCanvas.randIndex
          rw [zero_mul]
          exact Nat.floor_zero]
        exact fun he => h0 he.symm
    · intro k hk hne
      obtain ⟨i2, hret, hne2, hi2⟩ := retry_exits
        (DotCanvas.randIndex (rs 0) st.dots.length) st.dots.length rs
        (by omega) hr k 1 k hk (by omega) hne
      refine ⟨k, { st with lines :=
          (if st.lines.length > 20 then [] else st.lines) ++
            [{ dot1 := st.dots.getD (DotCanvas.randIndex (rs 0) st.dots.length) default,
               dot2 := st.dots.getD i2 default,
               color := DotCanvas.getRandomColor }] }, ?_,
        DotCanvas.randIndex (rs 0) st.dots.length, i2, fun he => hne2 he.symm,
        randIndex_lt (rs 0) _ (by omega) (hr 0).1 (hr 0).2, hi2, rfl, rfl⟩
      simp only [DotCanvas.addRandomLine, hret]

theorem c8_add_random_line_termination_witness :
    ∃ fuel st',
      DotCanvas.addRandomLine
        ⟨[⟨0, 0, 2, "#ffffff"⟩, ⟨3, 4, 2, "#ffffff"⟩], []⟩
        (fun k => if k = 0 then 0 else 1 / 2) fuel = some st' ∧
      ∃ i1 i2, i1 ≠ i2 ∧
        i1 < (DotCanvas.CanvasState.mk
          [⟨0, 0, 2, "#ffffff"⟩, ⟨3, 4, 2, "#ffffff"⟩] []).dots.length ∧
        i2 < (DotCanvas.CanvasState.mk
          [⟨0, 0, 2, "#ffffff"⟩, ⟨3, 4, 2, "#ffffff"⟩] []).dots.length ∧
        st'.dots = (DotCanvas.CanvasState.mk
          [⟨0, 0, 2, "#ffffff"⟩, ⟨3, 4, 2, "#ffffff"⟩] []).dots ∧
        st'.lines = (if ((DotCanvas.CanvasState.mk
            [⟨0, 0, 2, "#ffffff"⟩, ⟨3, 4, 2, "#ffffff"⟩] []).lines.length > 20)
            then [] else (DotCanvas.CanvasState.mk
              [⟨0, 0, 2, "#ffffff"⟩, ⟨3, 4, 2, "#ffffff"⟩] []).lines) ++
          [{ dot1 := (DotCanvas.CanvasState.mk
               [⟨0, 0, 2, "#ffffff"⟩, ⟨3, 4, 2, "#ffffff"⟩] []).dots.getD i1 default,
             dot2 := (DotCanvas.CanvasState.mk
               [⟨0, 0, 2, "#ffffff"⟩, ⟨3, 4, 2, "#ffffff"⟩] []).dots.getD i2 default,
             color := DotCanvas.getRandomColor }] :=
  ((c8_add_random_line_termination
      ⟨[⟨0, 0, 2, "#ffffff"⟩, ⟨3, 4, 2, "#ffffff"⟩], []⟩
      (fun k => if k = 0 then 0 else 1 / 2)
      (fun k => by
        by_cases h : k = 0
        · norm_num [h]
        · norm_num [h])).2
    (by norm_num)).2 1 le_rfl (by norm_num [DotCanvas.randIndex])

end Kalv
